import Mathlib

/-!
Verification development for the CycloneDX SBOM data model
(`cyclonedx/model/bom.py`): the `Bom` aggregate root, its `BomMetaData`,
and the dependency-graph consistency validator `Bom.validate`.

The embedding is shallow: Python classes become Lean structures, the
`sortedcontainers.SortedSet` collections become lists kept sorted and
duplicate-free under a value-identity key, Python `set` values become
`Finset String`, the random `uuid4()` and `datetime.now()` construction
inputs become explicit parameters, and a raising method becomes a
function into an explicit result type.

Entity identity (the sort/equality key of `Component`, `Service`, `Tool`
and `ExternalReference`) is encoded as a `List Nat`: each string field is
length-prefixed and an optional field carries a presence tag, so the
encoding is injective on the identity tuple, and the lexicographic order
`natListLt` on `List Nat` is a total order that the kernel can evaluate.
-/

namespace CycloneDX

/-- Lexicographic strict order on `List Nat`: a shorter-or-smaller list
comes first; used as the comparator of the sorted-set model. -/
def natListLt : List Nat → List Nat → Bool
  | [], [] => false
  | [], _ :: _ => true
  | _ :: _, [] => false
  | a :: as, b :: bs =>
    if a < b then true
    else if b < a then false
    else natListLt as bs

/-- Length-prefixed encoding of a string into the key alphabet. -/
def encStr (s : String) : List Nat :=
  s.length :: s.data.map Char.toNat

/-- Encoding of an optional string: a presence tag followed by the
encoded string when present. -/
def encOptStr : Option String → List Nat
  | none => [0]
  | some v => 1 :: encStr v

theorem natListLt_trans : ∀ (a b c : List Nat),
    natListLt a b = true → natListLt b c = true → natListLt a c = true := by
  intro a
  induction a with
  | nil =>
    intro b c h1 h2
    cases b with
    | nil => exact absurd h1 (by simp [natListLt])
    | cons x xs =>
      cases c with
      | nil => exact absurd h2 (by simp [natListLt])
      | cons y ys => simp [natListLt]
  | cons a as ih =>
    intro b c h1 h2
    cases b with
    | nil => exact absurd h1 (by simp [natListLt])
    | cons x xs =>
      cases c with
      | nil => exact absurd h2 (by simp [natListLt])
      | cons y ys =>
        rcases Nat.lt_trichotomy a x with hax | hax | hax
        · rcases Nat.lt_trichotomy x y with hxy | hxy | hxy
          · have hay : a < y := Nat.lt_trans hax hxy
            simp [natListLt, hay]
          · subst hxy
            simp [natListLt, hax]
          · have h2x : natListLt (x :: xs) (y :: ys) = false := by
              simp [natListLt, Nat.lt_asymm hxy, hxy]
            rw [h2x] at h2
            cases h2
        · subst hax
          have h1t : natListLt as xs = true := by
            simpa [natListLt, Nat.lt_irrefl] using h1
          rcases Nat.lt_trichotomy a y with hay | hay | hay
          · simp [natListLt, hay]
          · subst hay
            have h2t : natListLt xs ys = true := by
              simpa [natListLt, Nat.lt_irrefl] using h2
            simp [natListLt, Nat.lt_irrefl, ih xs ys h1t h2t]
          · have h2x : natListLt (a :: xs) (y :: ys) = false := by
              simp [natListLt, Nat.lt_asymm hay, hay]
            rw [h2x] at h2
            cases h2
        · have h1x : natListLt (a :: as) (x :: xs) = false := by
            simp [natListLt, Nat.lt_asymm hax, hax]
          rw [h1x] at h1
          cases h1

theorem natListLt_conn : ∀ (a b : List Nat),
    natListLt a b = false → natListLt b a = false → a = b := by
  intro a
  induction a with
  | nil =>
    intro b h1 _
    cases b with
    | nil => rfl
    | cons x xs => exact absurd h1 (by simp [natListLt])
  | cons a as ih =>
    intro b h1 h2
    cases b with
    | nil => exact absurd h2 (by simp [natListLt])
    | cons x xs =>
      rcases Nat.lt_trichotomy a x with h | h | h
      · exact absurd h1 (by simp [natListLt, h])
      · subst h
        have h1t : natListLt as xs = false := by
          simpa [natListLt, Nat.lt_irrefl] using h1
        have h2t : natListLt xs as = false := by
          simpa [natListLt, Nat.lt_irrefl] using h2
        rw [ih xs h1t h2t]
      · exact absurd h2 (by simp [natListLt, h])

/-- Model of `sortedcontainers.SortedSet` membership: some element of the
collection is value-equal (same identity key) to the candidate. -/
def ssContains {α : Type} (key : α → List Nat) (l : List α) (a : α) : Bool :=
  l.any fun b => decide (key b = key a)

/-- Insertion at the sorted position (comparator order on identity keys). -/
def ssInsert {α : Type} (key : α → List Nat) : List α → α → List α
  | [], a => [a]
  | b :: t, a =>
    match natListLt (key a) (key b) with
    | true => a :: b :: t
    | false => b :: ssInsert key t a

/-- Model of `SortedSet.add`: adding a value-equal element is a no-op,
otherwise the element is inserted at its sorted position. -/
def ssAdd {α : Type} (key : α → List Nat) (l : List α) (a : α) : List α :=
  match ssContains key l a with
  | true => l
  | false => ssInsert key l a

/-- Model of `SortedSet(iterable)`: fold the iterable into an empty set. -/
def ssOfList {α : Type} (key : α → List Nat) (l : List α) : List α :=
  l.foldl (ssAdd key) []

/-- Sortedness in comparator order: every earlier element has a strictly
smaller identity key, which both dedups and fixes the iteration order. -/
def ssSorted {α : Type} (key : α → List Nat) (l : List α) : Prop :=
  List.Pairwise (fun x y => natListLt (key x) (key y) = true) l

theorem mem_ssInsert {α : Type} (key : α → List Nat) (l : List α) (a x : α) :
    x ∈ ssInsert key l a ↔ x = a ∨ x ∈ l := by
  induction l with
  | nil => simp [ssInsert]
  | cons b t ih =>
    cases h : natListLt (key a) (key b) with
    | true =>
      simp [ssInsert, h]
    | false =>
      simp only [ssInsert, h, List.mem_cons, ih]
      tauto

theorem ssContains_iff {α : Type} (key : α → List Nat) (l : List α) (a : α) :
    ssContains key l a = true ↔ ∃ b ∈ l, key b = key a := by
  simp [ssContains]

theorem ssAdd_of_contains {α : Type} (key : α → List Nat) (l : List α) (a : α)
    (h : ssContains key l a = true) : ssAdd key l a = l := by
  simp [ssAdd, h]

theorem mem_ssAdd {α : Type} (key : α → List Nat) (l : List α) (a x : α)
    (h : x ∈ ssAdd key l a) : x = a ∨ x ∈ l := by
  cases hc : ssContains key l a with
  | true =>
    rw [ssAdd_of_contains key l a hc] at h
    exact Or.inr h
  | false =>
    simp only [ssAdd, hc] at h
    exact (mem_ssInsert key l a x).mp h

theorem ssContains_ssAdd_self {α : Type} (key : α → List Nat) (l : List α) (a : α) :
    ssContains key (ssAdd key l a) a = true := by
  cases hc : ssContains key l a with
  | true => rw [ssAdd_of_contains key l a hc]; exact hc
  | false =>
    simp only [ssAdd, hc]
    exact (ssContains_iff key _ a).mpr ⟨a, (mem_ssInsert key l a a).mpr (Or.inl rfl), rfl⟩

theorem ssAdd_dup {α : Type} (key : α → List Nat) (l : List α) (a a2 : α)
    (h : key a2 = key a) : ssAdd key (ssAdd key l a) a2 = ssAdd key l a := by
  apply ssAdd_of_contains
  rcases (ssContains_iff key _ a).mp (ssContains_ssAdd_self key l a) with ⟨b, hb, hk⟩
  exact (ssContains_iff key _ a2).mpr ⟨b, hb, hk.trans h.symm⟩

theorem ssSorted_ssInsert {α : Type} (key : α → List Nat) {l : List α} {a : α}
    (hs : ssSorted key l) (hc : ssContains key l a = false) :
    ssSorted key (ssInsert key l a) := by
  induction l with
  | nil => simp [ssInsert, ssSorted]
  | cons b t ih =>
    have hcb : ¬ key b = key a := by
      intro h
      simp [ssContains, h] at hc
    have hct : ssContains key t a = false := by
      have := hc
      simp only [ssContains, List.any_cons, Bool.or_eq_false_iff] at this
      exact this.2
    rcases List.pairwise_cons.mp hs with ⟨hhead, htail⟩
    cases h : natListLt (key a) (key b) with
    | true =>
      simp only [ssInsert, h]
      refine List.pairwise_cons.mpr ⟨?_, hs⟩
      intro y hy
      rcases List.mem_cons.mp hy with rfl | hyt
      · exact h
      · exact natListLt_trans _ _ _ h (hhead y hyt)
    | false =>
      have hba : natListLt (key b) (key a) = true := by
        rcases Bool.eq_false_or_eq_true (natListLt (key b) (key a)) with ht | hf
        · exact ht
        · exact absurd (natListLt_conn _ _ h hf).symm hcb
      simp only [ssInsert, h]
      refine List.pairwise_cons.mpr ⟨?_, ih htail hct⟩
      intro y hy
      rcases (mem_ssInsert key t a y).mp hy with rfl | hyt
      · exact hba
      · exact hhead y hyt

theorem ssSorted_ssAdd {α : Type} (key : α → List Nat) {l : List α} (a : α)
    (hs : ssSorted key l) : ssSorted key (ssAdd key l a) := by
  cases hc : ssContains key l a with
  | true => rw [ssAdd_of_contains key l a hc]; exact hs
  | false =>
    simp only [ssAdd, hc]
    exact ssSorted_ssInsert key hs hc

theorem ssSorted_foldl {α : Type} (key : α → List Nat) :
    ∀ (l acc : List α), ssSorted key acc → ssSorted key (List.foldl (ssAdd key) acc l) := by
  intro l
  induction l with
  | nil => intro acc h; exact h
  | cons a t ih =>
    intro acc h
    exact ih _ (ssSorted_ssAdd key a h)

theorem ssSorted_ssOfList {α : Type} (key : α → List Nat) (l : List α) :
    ssSorted key (ssOfList key l) :=
  ssSorted_foldl key l [] List.Pairwise.nil

theorem mem_foldl_ssAdd {α : Type} (key : α → List Nat) :
    ∀ (l acc : List α) (x : α), x ∈ List.foldl (ssAdd key) acc l → x ∈ acc ∨ x ∈ l := by
  intro l
  induction l with
  | nil =>
    intro acc x h
    exact Or.inl h
  | cons a t ih =>
    intro acc x h
    rcases ih _ x h with h2 | h2
    · rcases mem_ssAdd key acc a x h2 with rfl | h3
      · exact Or.inr (by simp)
      · exact Or.inl h3
    · exact Or.inr (List.mem_cons_of_mem a h2)

theorem mem_ssOfList {α : Type} (key : α → List Nat) (l : List α) (x : α)
    (h : x ∈ ssOfList key l) : x ∈ l := by
  rcases mem_foldl_ssAdd key l [] x h with h2 | h2
  · cases h2
  · exact h2

theorem keyMem_ssAdd {α : Type} (key : α → List Nat) (l : List α) (a : α) (k : List Nat) :
    (∃ y ∈ ssAdd key l a, key y = k) ↔ (∃ y ∈ l, key y = k) ∨ key a = k := by
  constructor
  · rintro ⟨y, hy, hk⟩
    rcases mem_ssAdd key l a y hy with rfl | hmem
    · exact Or.inr hk
    · exact Or.inl ⟨y, hmem, hk⟩
  · rintro (⟨y, hy, hk⟩ | hk)
    · cases hc : ssContains key l a with
      | true => rw [ssAdd_of_contains key l a hc]; exact ⟨y, hy, hk⟩
      | false =>
        simp only [ssAdd, hc]
        exact ⟨y, (mem_ssInsert key l a y).mpr (Or.inr hy), hk⟩
    · cases hc : ssContains key l a with
      | true =>
        rcases (ssContains_iff key l a).mp hc with ⟨y, hy, hky⟩
        rw [ssAdd_of_contains key l a hc]
        exact ⟨y, hy, hky.trans hk⟩
      | false =>
        simp only [ssAdd, hc]
        exact ⟨a, (mem_ssInsert key l a a).mpr (Or.inl rfl), hk⟩

theorem keyMem_foldl {α : Type} (key : α → List Nat) :
    ∀ (l acc : List α) (k : List Nat),
      (∃ y ∈ List.foldl (ssAdd key) acc l, key y = k) ↔
        (∃ y ∈ acc, key y = k) ∨ (∃ y ∈ l, key y = k) := by
  intro l
  induction l with
  | nil =>
    intro acc k
    simp
  | cons a t ih =>
    intro acc k
    rw [List.foldl_cons, ih, keyMem_ssAdd]
    constructor
    · rintro ((⟨y, hy, hk⟩ | hk) | ⟨y, hy, hk⟩)
      · exact Or.inl ⟨y, hy, hk⟩
      · exact Or.inr ⟨a, List.mem_cons_self a t, hk⟩
      · exact Or.inr ⟨y, List.mem_cons_of_mem a hy, hk⟩
    · rintro (⟨y, hy, hk⟩ | ⟨y, hy, hk⟩)
      · exact Or.inl (Or.inl ⟨y, hy, hk⟩)
      · rcases List.mem_cons.mp hy with rfl | hyt
        · exact Or.inl (Or.inr hk)
        · exact Or.inr ⟨y, hyt, hk⟩

theorem keyMem_ssOfList {α : Type} (key : α → List Nat) (l : List α) (k : List Nat) :
    (∃ y ∈ ssOfList key l, key y = k) ↔ ∃ y ∈ l, key y = k := by
  rw [ssOfList, keyMem_foldl]
  simp

/-- Modelled from the spec: a `Tool` (from `cyclonedx.model`, not under
`src/`) is a value object recording what produced the document; only its
role as an orderable, comparable value matters here. -/
structure Tool where
  vendor : String
  name : String
  version : String
deriving DecidableEq

/-- Modelled from the spec: `ThisTool` is the sentinel self-describing
tool entry (defined in `cyclonedx.model`, not under `src/`) that
`BomMetaData.__init__` auto-adds when the caller supplies no tools. -/
def ThisTool : Tool :=
  { vendor := "CycloneDX", name := "cyclonedx-python-lib", version := "2.0.0" }

/-- Identity key of a `Tool` for the sorted-set comparator. -/
def toolKey (t : Tool) : List Nat :=
  encStr t.vendor ++ encStr t.name ++ encStr t.version

/-- Modelled from the spec: a `Component` (class in
`cyclonedx.model.component`, not under `src/`) carries a name, an
optional version, an identifier `bom_ref`, an optional package reference
`purl`, the set of declared dependency identifiers, and zero or more
vulnerabilities. `bom.py` reads exactly these attributes. -/
structure Component where
  name : String
  version : Option String
  bom_ref : String
  purl : Option String
  dependencies : Finset String
  vulnerabilities : List String
deriving DecidableEq

/-- Identity key of a `Component`: the spec's value-identity tuple
name, version, identifier. -/
def componentKey (c : Component) : List Nat :=
  encStr c.name ++ encOptStr c.version ++ encStr c.bom_ref

/-- Modelled from the spec: `Component.has_vulnerabilities` reports
whether the component carries at least one vulnerability. -/
def Component.has_vulnerabilities (c : Component) : Bool :=
  !c.vulnerabilities.isEmpty

/-- Modelled from the spec: a `Service` (class in
`cyclonedx.model.service`, not under `src/`) has the same
identifier shape as a `Component`; `bom.py` only reads its `bom_ref`. -/
structure Service where
  name : String
  version : Option String
  bom_ref : String
deriving DecidableEq

/-- Identity key of a `Service`. -/
def serviceKey (s : Service) : List Nat :=
  encStr s.name ++ encOptStr s.version ++ encStr s.bom_ref

/-- Modelled from the spec: an `ExternalReference` (class in
`cyclonedx.model`, not under `src/`) is a value object documenting a
reference related to the BOM. -/
structure ExternalReference where
  reference_kind : String
  url : String
  comment : Option String
deriving DecidableEq

/-- Identity key of an `ExternalReference`. -/
def extRefKey (e : ExternalReference) : List Nat :=
  encStr e.reference_kind ++ encStr e.url

/-- Identity key of a plain string (used for the remaining metadata
collections, whose element classes are opaque value objects here). -/
def strKey (s : String) : List Nat :=
  encStr s

/-- Embedding of `BomMetaData`: timestamps become `Nat` instants in UTC,
the `SortedSet` attributes become sorted duplicate-free lists, and the
opaque value objects (`OrganizationalContact`, `OrganizationalEntity`,
`LicenseChoice`, `Property`) become strings. -/
structure BomMetaData where
  timestamp : Nat
  tools : List Tool
  authors : List String
  component : Option Component
  manufacture : Option String
  supplier : Option String
  licenses : List String
  properties : List String
deriving DecidableEq

/-- Embedding of `BomMetaData.__init__`. `now` is the construction-time
clock reading (`datetime.now(tz=timezone.utc)`), passed explicitly. Each
optional iterable argument defaults to `[]` exactly as `x or []` does for
a list-or-None argument, and when the caller supplied no tools
(`if not tools:`) the sentinel `ThisTool` is added to the tools set. -/
def BomMetaData.make (now : Nat) (tools : Option (List Tool))
    (authors : Option (List String)) (component : Option Component)
    (manufacture : Option String) (supplier : Option String)
    (licenses : Option (List String)) (properties : Option (List String)) :
    BomMetaData :=
  let md : BomMetaData :=
    { timestamp := now
      tools := ssOfList toolKey (tools.getD [])
      authors := ssOfList strKey (authors.getD [])
      component := component
      manufacture := manufacture
      supplier := supplier
      licenses := ssOfList strKey (licenses.getD [])
      properties := ssOfList strKey (properties.getD []) }
  match (tools.getD []).isEmpty with
  | true => { md with tools := ssAdd toolKey md.tools ThisTool }
  | false => md

/-- Embedding of the `Bom` aggregate root. `uuid` is the `uuid4()` value
generated at construction, modelled as a `Nat` passed explicitly. -/
structure Bom where
  uuid : Nat
  metadata : BomMetaData
  components : List Component
  services : List Service
  external_references : List ExternalReference
deriving DecidableEq

/-- Embedding of `Bom.__init__`: a fresh uuid and a fresh default
`BomMetaData` (no tools supplied, so the sentinel is added), and each
collection argument folded into a sorted set, `x or []` defaulting. -/
def Bom.make (uuid : Nat) (now : Nat) (components : Option (List Component))
    (services : Option (List Service))
    (external_references : Option (List ExternalReference)) : Bom :=
  { uuid := uuid
    metadata := BomMetaData.make now none none none none none none none
    components := ssOfList componentKey (components.getD [])
    services := ssOfList serviceKey (services.getD [])
    external_references := ssOfList extRefKey (external_references.getD []) }

/-- Outcome of `Bom.validate`: either the hard structural check raised
`UnknownComponentDependencyException` carrying the unresolved reference
set, or the method returned `value` having emitted (or not) the
incomplete-dependency-graph `UserWarning`. -/
inductive ValidateResult where
  | raised (unknown_refs : Finset String)
  | returned (warning_emitted : Bool) (value : Bool)
deriving DecidableEq

/-- Embedding of `all_bom_refs` in `Bom.validate`: the identifier
universe, i.e. the described component's `bom_ref` if one is set, union
all components' `bom_ref`s, union all services' `bom_ref`s. -/
def Bom.allBomRefs (b : Bom) : Finset String :=
  (match b.metadata.component with
    | some c => ({c.bom_ref} : Finset String)
    | none => ∅)
    ∪ (b.components.map Component.bom_ref).toFinset
    ∪ (b.services.map Service.bom_ref).toFinset

/-- Embedding of `all_dependency_bom_refs` in `Bom.validate`: the union,
across the components collection only, of each component's declared
dependency identifiers. -/
def Bom.allDependencyBomRefs (b : Bom) : Finset String :=
  b.components.foldl (fun acc c => acc ∪ c.dependencies) ∅

/-- Embedding of `dependency_diff` in `Bom.validate`. -/
def Bom.dependencyDiff (b : Bom) : Finset String :=
  b.allDependencyBomRefs \ b.allBomRefs

/-- Embedding of the advisory check condition in `Bom.validate`:
`self.metadata.component and not self.metadata.component.dependencies`,
i.e. a described component is set and has an empty dependency set. -/
def Bom.incompleteGraphWarning (b : Bom) : Bool :=
  match b.metadata.component with
  | some c => decide (c.dependencies = ∅)
  | none => false

/-- Embedding of `Bom.validate`: raise when `len(dependency_diff) > 0`,
otherwise emit the advisory warning when its condition holds and return
`True`. -/
def Bom.validate (b : Bom) : ValidateResult :=
  if 0 < b.dependencyDiff.card then ValidateResult.raised b.dependencyDiff
  else ValidateResult.returned b.incompleteGraphWarning true

/-- State-passing form of `Bom.validate`. The Python method body reads
`self.metadata`, `self.components` and `self.services` and assigns to no
attribute of `self`, so the post-call object state is the receiver
unchanged. -/
def Bom.validateRun (b : Bom) : ValidateResult × Bom :=
  (b.validate, b)

/-- Embedding of `Bom.get_urn_uuid`. -/
def Bom.get_urn_uuid (b : Bom) : String :=
  "urn:uuid:" ++ toString b.uuid

/-- Embedding of `Bom.has_component`: `component in self.components`,
membership under value equality. -/
def Bom.has_component (b : Bom) (component : Component) : Bool :=
  ssContains componentKey b.components component

/-- Embedding of `Bom.has_vulnerabilities`. -/
def Bom.has_vulnerabilities (b : Bom) : Bool :=
  b.components.any Component.has_vulnerabilities

/-- Python truthiness of an optional string: `if purl:` is entered only
for a present, non-empty string. -/
def strOptTruthy : Option String → Bool
  | some s => !s.isEmpty
  | none => false

/-- Embedding of `Bom.get_component_by_purl`: when `purl` is truthy,
filter the components on `x.purl == purl` and return the single match if
there is exactly one, else `None`. -/
def Bom.get_component_by_purl (b : Bom) (purl : Option String) : Option Component :=
  if strOptTruthy purl = true then
    let found := b.components.filter fun x => decide (x.purl = purl)
    if found.length = 1 then found.head? else none
  else none

/-- Embedding of `bom.components.add(c)` (`SortedSet.add` on the
components collection). -/
def Bom.addComponent (b : Bom) (c : Component) : Bom :=
  { b with components := ssAdd componentKey b.components c }

/-- Embedding of `bom.services.add(s)`. -/
def Bom.addService (b : Bom) (s : Service) : Bom :=
  { b with services := ssAdd serviceKey b.services s }

/-- Embedding of `bom.external_references.add(e)`. -/
def Bom.addExternalReference (b : Bom) (e : ExternalReference) : Bom :=
  { b with external_references := ssAdd extRefKey b.external_references e }

/-- State-passing form of `Bom.has_component` (a pure read). -/
def Bom.has_componentRun (b : Bom) (component : Component) : Bool × Bom :=
  (b.has_component component, b)

/-- State-passing form of `Bom.has_vulnerabilities` (a pure read). -/
def Bom.has_vulnerabilitiesRun (b : Bom) : Bool × Bom :=
  (b.has_vulnerabilities, b)

/-- State-passing form of `Bom.get_component_by_purl` (a pure read). -/
def Bom.get_component_by_purlRun (b : Bom) (purl : Option String) :
    Option Component × Bom :=
  (b.get_component_by_purl purl, b)

/-- State-passing form of `Bom.get_urn_uuid` (a pure read). -/
def Bom.get_urn_uuidRun (b : Bom) : String × Bom :=
  (b.get_urn_uuid, b)

/-- Python `hash()` applied to a `sortedcontainers.SortedSet`. The
`SortedSet` class defines `__eq__` but no `__hash__` (it is a
`MutableSet`), so its `__hash__` attribute is `None` and hashing raises
`TypeError`. Hashes of hashable values are modelled as the values
themselves (an idealized injective hash). -/
def pyHashSortedSet {α : Type} (_s : List α) : Except String (List α) :=
  Except.error "TypeError: unhashable type SortedSet"

/-- Embedding of `BomMetaData.__hash__`:
`hash((self.timestamp, self.tools, self.component))`, hashing the tuple
elements left to right. `self.tools` is a `SortedSet`, so this raises. -/
def BomMetaData.pyHash (m : BomMetaData) :
    Except String (Nat × List Tool × Option Component) := do
  let ht := m.timestamp
  let htools ← pyHashSortedSet m.tools
  let hcomp := m.component
  pure (ht, htools, hcomp)

/-- Embedding of `BomMetaData.__eq__` on two `BomMetaData` instances:
`hash(other) == hash(self)`. -/
def BomMetaData.pyEq (self other : BomMetaData) : Except String Bool := do
  let hother ← other.pyHash
  let hself ← self.pyHash
  pure (decide (hother = hself))

/-- Embedding of `Bom.__hash__`: `hash((self.uuid, self.metadata,
tuple(self.components), tuple(self.services),
tuple(self.external_references)))`. The three collections are wrapped in
`tuple(...)` (hashable), but hashing `self.metadata` delegates to
`BomMetaData.__hash__`. -/
def Bom.pyHash (b : Bom) :
    Except String
      (Nat × (Nat × List Tool × Option Component) × List Component ×
        List Service × List ExternalReference) := do
  let hu := b.uuid
  let hmeta ← b.metadata.pyHash
  pure (hu, hmeta, b.components, b.services, b.external_references)

/-- Embedding of `Bom.__eq__` on two `Bom` instances:
`hash(other) == hash(self)`. -/
def Bom.pyEq (self other : Bom) : Except String Bool := do
  let hother ← other.pyHash
  let hself ← self.pyHash
  pure (decide (hother = hself))

theorem Bom.validate_of_subset (b : Bom)
    (h : b.allDependencyBomRefs ⊆ b.allBomRefs) :
    b.validate = ValidateResult.returned b.incompleteGraphWarning true := by
  have hd : b.dependencyDiff = ∅ := Finset.sdiff_eq_empty_iff_subset.mpr h
  unfold Bom.validate
  rw [hd]
  simp

theorem Bom.validate_of_nonempty (b : Bom) (h : b.dependencyDiff.Nonempty) :
    b.validate = ValidateResult.raised b.dependencyDiff := by
  have hc : 0 < b.dependencyDiff.card := Finset.card_pos.mpr h
  unfold Bom.validate
  rw [if_pos hc]

/-! Concrete fixtures used by the witnesses, mirroring the spec's
scenarios A to D. -/

def toolA : Tool := ⟨"Acme", "tool-a", "1.2.3"⟩

def svcA : Service := ⟨"svc", none, "svc-1"⟩

def extA : ExternalReference := ⟨"website", "https://example.com", none⟩

def compRoot : Component := ⟨"app", some "1.0", "root", some "pkg-app", ∅, []⟩

def compRootGhost : Component := ⟨"app", some "1.0", "root", none, {"ghost"}, []⟩

def compLibA : Component := ⟨"lib-a", some "1.0", "lib-a", none, {"root"}, []⟩

def compLibBad : Component := ⟨"lib-a", some "1.0", "lib-a", none, {"lib-missing"}, []⟩

def compX : Component := ⟨"x", none, "x", none, {"y"}, []⟩

def compY : Component := ⟨"y", none, "y", none, {"x"}, []⟩

def compDup1 : Component := ⟨"lib", none, "r", none, ∅, []⟩

def compDup2 : Component := ⟨"lib", none, "r", some "p", ∅, ["vuln-1"]⟩

def compPA : Component := ⟨"a", none, "ref-a", some "purl-a", ∅, []⟩

def compPB : Component := ⟨"b", none, "ref-b", some "purl-b", ∅, []⟩

def compPB2 : Component := ⟨"b2", none, "ref-b2", some "purl-b", ∅, []⟩

def bomEmpty : Bom := Bom.make 3 0 none none none

def bomCycle : Bom := Bom.make 4 0 (some [compX, compY]) none none

def bomA : Bom :=
  let b := Bom.make 5 0 (some [compLibA]) none none
  { b with metadata := { b.metadata with component := some compRoot } }

def bomB : Bom :=
  let b := Bom.make 7 0 (some [compLibBad]) none none
  { b with metadata := { b.metadata with component := some compRoot } }

def bomGhost : Bom :=
  let b := Bom.make 9 0 (some [compLibA]) none none
  { b with metadata := { b.metadata with component := some compRootGhost } }

def bomPurl : Bom := Bom.make 11 0 (some [compPA, compPB, compPB2]) none none

/-- C1: whenever at least one declared dependency identifier (union over
the components of their dependency sets) is missing from the identifier
universe, `validate` raises `UnknownComponentDependencyException` and the
reported unresolved set is exactly the set difference declared minus
universe, identifying every unresolved reference at once. -/
theorem validate_raises_exactly_unresolved (b : Bom)
    (h : (b.allDependencyBomRefs \ b.allBomRefs).Nonempty) :
    b.validate = ValidateResult.raised (b.allDependencyBomRefs \ b.allBomRefs) :=
  Bom.validate_of_nonempty b h

theorem validate_raises_exactly_unresolved_witness :
    bomB.validate =
      ValidateResult.raised (bomB.allDependencyBomRefs \ bomB.allBomRefs) ∧
    bomB.allDependencyBomRefs \ bomB.allBomRefs = {"lib-missing"} :=
  ⟨validate_raises_exactly_unresolved bomB (by decide), by decide⟩

/-- C2: whenever every declared dependency identifier is in the
identifier universe, `validate` returns `True` without raising; in
particular the empty Bom and a Bom whose components depend on each other
cyclically both validate successfully. -/
theorem validate_succeeds_of_resolved (b : Bom)
    (h : b.allDependencyBomRefs ⊆ b.allBomRefs) :
    b.validate = ValidateResult.returned b.incompleteGraphWarning true :=
  Bom.validate_of_subset b h

theorem validate_succeeds_of_resolved_witness :
    bomEmpty.validate =
      ValidateResult.returned bomEmpty.incompleteGraphWarning true ∧
    bomCycle.validate =
      ValidateResult.returned bomCycle.incompleteGraphWarning true ∧
    bomEmpty.incompleteGraphWarning = false ∧
    bomCycle.incompleteGraphWarning = false :=
  ⟨validate_succeeds_of_resolved bomEmpty (by decide),
   validate_succeeds_of_resolved bomCycle (by decide), by decide, by decide⟩

/-- C3: when the hard check passes, a described component with no
dependencies makes `validate` emit the advisory warning and still return
`True`; with no described component, or a described component that has
dependencies, no warning is emitted and `validate` still returns `True`.
The advisory check never raises and never changes the return value. -/
theorem validate_warning_is_advisory (b : Bom)
    (h : b.allDependencyBomRefs ⊆ b.allBomRefs) :
    (∀ mc : Component, b.metadata.component = some mc → mc.dependencies = ∅ →
      b.validate = ValidateResult.returned true true) ∧
    (b.metadata.component = none →
      b.validate = ValidateResult.returned false true) ∧
    (∀ mc : Component, b.metadata.component = some mc → mc.dependencies ≠ ∅ →
      b.validate = ValidateResult.returned false true) := by
  have hv := Bom.validate_of_subset b h
  refine ⟨?_, ?_, ?_⟩
  · intro mc hmc hdep
    have hw : b.incompleteGraphWarning = true := by
      simp [Bom.incompleteGraphWarning, hmc, hdep]
    rw [hv, hw]
  · intro hmc
    have hw : b.incompleteGraphWarning = false := by
      simp [Bom.incompleteGraphWarning, hmc]
    rw [hv, hw]
  · intro mc hmc hdep
    have hw : b.incompleteGraphWarning = false := by
      simp [Bom.incompleteGraphWarning, hmc, hdep]
    rw [hv, hw]

theorem validate_warning_is_advisory_witness :
    bomA.validate = ValidateResult.returned true true ∧
    bomEmpty.validate = ValidateResult.returned false true :=
  ⟨(validate_warning_is_advisory bomA (by decide)).1 compRoot rfl (by decide),
   (validate_warning_is_advisory bomEmpty (by decide)).2.1 rfl⟩

/-- C4: `validate` is deterministic and idempotent and does not mutate
the Bom: the post-call state agrees with the receiver on uuid, metadata,
components, services and external references, and a second call on the
post-call state produces the same outcome (same returned value or same
raised unresolved set). -/
theorem validate_idempotent_pure (b : Bom) :
    b.validateRun.2.uuid = b.uuid ∧
    b.validateRun.2.metadata = b.metadata ∧
    b.validateRun.2.components = b.components ∧
    b.validateRun.2.services = b.services ∧
    b.validateRun.2.external_references = b.external_references ∧
    b.validateRun.1 = b.validateRun.2.validateRun.1 :=
  ⟨rfl, rfl, rfl, rfl, rfl, rfl⟩

/-- C5 counterevidence: comparing two `BomMetaData` (or two `Bom`)
instances never yields a boolean at all. `BomMetaData.__hash__` hashes
the tuple `(timestamp, tools, component)` whose `tools` entry is a
`SortedSet`, which is unhashable, so `__eq__` (which compares hashes)
raises `TypeError` for every pair of instances — unlike `Bom.__hash__`
in the same file, which wraps its `SortedSet` attributes in `tuple(...)`
but still fails through its `metadata` entry. -/
theorem bom_equality_raises_typeerror :
    ∀ (m1 m2 : BomMetaData) (b1 b2 : Bom),
      m1.pyEq m2 = Except.error "TypeError: unhashable type SortedSet" ∧
      b1.pyEq b2 = Except.error "TypeError: unhashable type SortedSet" :=
  fun _ _ _ _ => ⟨rfl, rfl⟩

/-- C6: no operation of the Bom changes its uuid: the three collection
insertions, validate, has-component, has-vulnerabilities,
get-component-by-purl and get-urn-uuid all leave the uuid of the
post-call state equal to the uuid before the call. -/
theorem uuid_stable_under_operations (b : Bom) (c : Component) (s : Service)
    (e : ExternalReference) (p : Option String) :
    (b.addComponent c).uuid = b.uuid ∧
    (b.addService s).uuid = b.uuid ∧
    (b.addExternalReference e).uuid = b.uuid ∧
    b.validateRun.2.uuid = b.uuid ∧
    (b.has_componentRun c).2.uuid = b.uuid ∧
    b.has_vulnerabilitiesRun.2.uuid = b.uuid ∧
    (b.get_component_by_purlRun p).2.uuid = b.uuid ∧
    b.get_urn_uuidRun.2.uuid = b.uuid :=
  ⟨rfl, rfl, rfl, rfl, rfl, rfl, rfl, rfl⟩

/-- C7: the Bom's components, services and external-references
collections behave as order-stable unique sets: adding a value-equal
entity (same identity key) a second time is a no-op, in particular the
components collection keeps its size, insertion preserves sortedness and
a collection built from any list is sorted in comparator order. -/
theorem collections_are_ordered_unique_sets (b : Bom) (c c2 : Component)
    (s s2 : Service) (e e2 : ExternalReference) (l : List Component) :
    (componentKey c2 = componentKey c →
      (b.addComponent c).addComponent c2 = b.addComponent c) ∧
    (componentKey c2 = componentKey c →
      ((b.addComponent c).addComponent c2).components.length =
        (b.addComponent c).components.length) ∧
    (serviceKey s2 = serviceKey s →
      (b.addService s).addService s2 = b.addService s) ∧
    (extRefKey e2 = extRefKey e →
      (b.addExternalReference e).addExternalReference e2 =
        b.addExternalReference e) ∧
    (ssSorted componentKey b.components →
      ssSorted componentKey (b.addComponent c).components) ∧
    ssSorted componentKey (ssOfList componentKey l) := by
  refine ⟨?_, ?_, ?_, ?_, ?_, ssSorted_ssOfList componentKey l⟩
  · intro h
    simp only [Bom.addComponent]
    rw [ssAdd_dup componentKey b.components c c2 h]
  · intro h
    simp only [Bom.addComponent]
    rw [ssAdd_dup componentKey b.components c c2 h]
  · intro h
    simp only [Bom.addService]
    rw [ssAdd_dup serviceKey b.services s s2 h]
  · intro h
    simp only [Bom.addExternalReference]
    rw [ssAdd_dup extRefKey b.external_references e e2 h]
  · intro hs
    simp only [Bom.addComponent]
    exact ssSorted_ssAdd componentKey c hs

theorem collections_are_ordered_unique_sets_witness :
    (bomCycle.addComponent compDup1).addComponent compDup2 =
      bomCycle.addComponent compDup1 ∧
    ((bomCycle.addComponent compDup1).addComponent compDup2).components.length =
      (bomCycle.addComponent compDup1).components.length ∧
    ssSorted componentKey (ssOfList componentKey [compY, compX, compDup1]) :=
  ⟨(collections_are_ordered_unique_sets bomCycle compDup1 compDup2 svcA svcA
      extA extA [compY, compX, compDup1]).1 (by decide),
   (collections_are_ordered_unique_sets bomCycle compDup1 compDup2 svcA svcA
      extA extA [compY, compX, compDup1]).2.1 (by decide),
   (collections_are_ordered_unique_sets bomCycle compDup1 compDup2 svcA svcA
      extA extA [compY, compX, compDup1]).2.2.2.2.2⟩

/-- C8: on construction of `BomMetaData`, supplying no tools (None or an
empty iterable) auto-populates the tools collection with exactly the
sentinel `ThisTool`, and the timestamp is the construction-time clock
reading; supplying a non-empty tools iterable adds no sentinel and the
tools collection holds exactly the supplied set (its elements come from
the supplied list and it represents the same value-identity keys). -/
theorem metadata_defaulting (now : Nat) (authors : Option (List String))
    (component : Option Component) (manufacture supplier : Option String)
    (licenses properties : Option (List String)) (ts : List Tool) :
    ((BomMetaData.make now none authors component manufacture supplier
        licenses properties).tools = [ThisTool] ∧
      (BomMetaData.make now none authors component manufacture supplier
        licenses properties).timestamp = now) ∧
    ((BomMetaData.make now (some []) authors component manufacture supplier
        licenses properties).tools = [ThisTool] ∧
      (BomMetaData.make now (some []) authors component manufacture supplier
        licenses properties).timestamp = now) ∧
    (ts ≠ [] →
      (BomMetaData.make now (some ts) authors component manufacture supplier
        licenses properties).timestamp = now ∧
      (∀ x ∈ (BomMetaData.make now (some ts) authors component manufacture
        supplier licenses properties).tools, x ∈ ts) ∧
      (∀ t : Tool,
        (∃ y ∈ (BomMetaData.make now (some ts) authors component manufacture
          supplier licenses properties).tools, toolKey y = toolKey t) ↔
          ∃ y ∈ ts, toolKey y = toolKey t)) := by
  refine ⟨⟨rfl, rfl⟩, ⟨rfl, rfl⟩, ?_⟩
  intro hts
  cases ts with
  | nil => exact absurd rfl hts
  | cons t0 ts0 =>
    refine ⟨rfl, ?_, ?_⟩
    · intro x hx
      exact mem_ssOfList toolKey (t0 :: ts0) x hx
    · intro t
      exact keyMem_ssOfList toolKey (t0 :: ts0) (toolKey t)

theorem metadata_defaulting_witness :
    (BomMetaData.make 42 none none none none none none none).tools =
      [ThisTool] ∧
    (∀ x ∈ (BomMetaData.make 42 (some [toolA]) none none none none none
      none).tools, x ∈ [toolA]) :=
  ⟨(metadata_defaulting 42 none none none none none none [toolA]).1.1,
   ((metadata_defaulting 42 none none none none none none [toolA]).2.2
      (by decide)).2.1⟩

/-- C9: the declared dependency set is built only from the components
collection, so a described component that is not itself a member of the
components collection has its own dependency identifiers unchecked:
with all components' declared dependencies resolved, `validate` still
returns `True`, and some dependency of the described component is absent
from the declared set. -/
theorem described_component_dependencies_unchecked (b : Bom) (mc : Component)
    (hmc : b.metadata.component = some mc)
    (hbad : ¬ mc.dependencies ⊆ b.allBomRefs)
    (hmem : mc ∉ b.components)
    (hsub : b.allDependencyBomRefs ⊆ b.allBomRefs) :
    b.validate = ValidateResult.returned b.incompleteGraphWarning true ∧
    ∃ d ∈ mc.dependencies, d ∉ b.allDependencyBomRefs := by
  refine ⟨Bom.validate_of_subset b hsub, ?_⟩
  rcases Finset.not_subset.mp hbad with ⟨d, hd, hdn⟩
  exact ⟨d, hd, fun hmem2 => hdn (hsub hmem2)⟩

theorem described_component_dependencies_unchecked_witness :
    bomGhost.validate =
      ValidateResult.returned bomGhost.incompleteGraphWarning true ∧
    ∃ d ∈ compRootGhost.dependencies, d ∉ bomGhost.allDependencyBomRefs :=
  described_component_dependencies_unchecked bomGhost compRootGhost rfl
    (by decide) (by decide) (by decide)

/-- C10: `get_component_by_purl` returns a component exactly when the
supplied purl is truthy (present and non-empty) and exactly one component
matches it, in which case it returns that unique match; for a falsy purl
or a match count other than one it returns `None`. -/
theorem get_component_by_purl_unique_match (b : Bom) (purl : Option String) :
    (strOptTruthy purl = false → b.get_component_by_purl purl = none) ∧
    ((b.components.filter fun x => decide (x.purl = purl)).length ≠ 1 →
      b.get_component_by_purl purl = none) ∧
    (strOptTruthy purl = true → ∀ c : Component,
      (b.components.filter fun x => decide (x.purl = purl)) = [c] →
      b.get_component_by_purl purl = some c) := by
  refine ⟨?_, ?_, ?_⟩
  · intro h
    simp [Bom.get_component_by_purl, h]
  · intro h
    cases ht : strOptTruthy purl with
    | false => simp [Bom.get_component_by_purl, ht]
    | true => simp [Bom.get_component_by_purl, ht, h]
  · intro ht c hc
    simp [Bom.get_component_by_purl, ht, hc]

theorem get_component_by_purl_unique_match_witness :
    bomPurl.get_component_by_purl (some "purl-a") = some compPA ∧
    bomPurl.get_component_by_purl (some "purl-b") = none ∧
    bomPurl.get_component_by_purl none = none :=
  ⟨(get_component_by_purl_unique_match bomPurl (some "purl-a")).2.2
      (by decide) compPA (by decide),
   (get_component_by_purl_unique_match bomPurl (some "purl-b")).2.1 (by decide),
   (get_component_by_purl_unique_match bomPurl none).1 (by decide)⟩

end CycloneDX
